import Mathlib

/-!
Verification of the Excel-to-Markdown Q&A extraction script (excel_to_md.py).

The script is embedded shallowly:
* spreadsheet cells become the inductive type `Cell` (missing marker, text, or
  numeric value modelled as a rational, standing for the Python float);
* the regex substitution pipeline of `anonymize_financial_info` is embedded via
  a small executable backtracking regex engine (`RE`, `mtch`, `reSub`) with the
  eight patterns of the source transcribed one to one, including word
  boundaries, the negative lookahead, greedy repetition and the IGNORECASE
  flag;
* `is_question`, `process_row`, `format_answer` and `process_sheet` are direct
  translations of the corresponding Python functions.

All definitions are executable so that every theorem about a concrete input can
be settled by evaluation.
-/

/-- A spreadsheet cell as handed to the script by pandas: a missing value
(NaN, for which `pd.isnull` is true and `str` gives "nan"), a text cell, or a
numeric cell.  Python floats are modelled as rationals; the claims under
verification never depend on binary floating point rounding. -/
inductive Cell where
  | missing
  | text (s : String)
  | num (v : ℚ)
deriving DecidableEq, Repr

/-- `pd.isnull(cell)`: true exactly for the missing marker. -/
def pdIsNull : Cell → Bool
  | Cell.missing => true
  | _ => false

/-- Decimal digits of the fractional part rem/den (den > 0), most significant
first, as produced by Python float printing for terminating decimals. -/
def decDigits : Nat → Nat → Nat → List Char
  | 0, _, _ => []
  | _ + 1, 0, _ => []
  | fuel + 1, rem, den =>
    Char.ofNat (48 + rem * 10 / den) :: decDigits fuel (rem * 10 % den) den

/-- Python `str` on a float value, for values with a terminating decimal
expansion: sign (negative exactly when the numerator is), integer part, and
fractional digits; integral values get a trailing ".0" exactly as Python
prints them.  Stated on the numerator and denominator so that it evaluates by
kernel reduction. -/
def ratRepr (v : ℚ) : String :=
  let sgn : String := if v.num < 0 then "-" else ""
  let n : Nat := v.num.natAbs
  let d : Nat := v.den
  let ip : Nat := n / d
  let rem : Nat := n % d
  if rem = 0 then sgn ++ toString ip ++ ".0"
  else sgn ++ toString ip ++ "." ++ String.mk (decDigits 30 rem d)

/-- Python `str(cell)`: "nan" for a missing value, the text itself for a text
cell, the decimal rendering for a numeric cell. -/
def pyStr : Cell → String
  | Cell.missing => "nan"
  | Cell.text s => s
  | Cell.num v => ratRepr v

/-- Python `f"{float(cell)*100:.2f}%"`: the value times 100 printed with
exactly two decimal digits and a percent sign.  The rounded magnitude in
hundredths is floor(|num|·10000/den + 1/2), computed on the numerator and
denominator so that it evaluates by kernel reduction; the sign is that of the
value. -/
def formatPct2 (v : ℚ) : String :=
  let m : Nat := (2 * (v.num.natAbs * 10000) + v.den) / (2 * v.den)
  let ip : Nat := m / 100
  let fp : Nat := m % 100
  (if v.num < 0 then "-" else "") ++ toString ip ++ "." ++
    (if fp < 10 then "0" ++ toString fp else toString fp) ++ "%"

/-- Word characters in the sense of the regex metacharacter for boundaries:
ASCII letters, digits, and underscore. -/
def isWordChar (c : Char) : Bool := c.isAlphanum || c = '_'

/-- Abstract syntax of the regular expressions used by the script: character
classes, concatenation, alternation (preferring the left branch), greedy
Kleene star, word boundary, and negative lookahead. -/
inductive RE where
  | eps
  | cls (p : Char → Bool)
  | seq (a b : RE)
  | alt (a b : RE)
  | star (a : RE)
  | wordB
  | nla (a : RE)

/-- Word-boundary test between the previously consumed character and the
remaining input. -/
def isBoundary (prev : Option Char) (s : List Char) : Bool :=
  let l : Bool := match prev with | none => false | some c => isWordChar c
  let r : Bool := match s with | [] => false | c :: _ => isWordChar c
  l != r

/-- Backtracking matcher.  `mtch fuel r prev s` returns, in the preference
order of a leftmost backtracking regex engine (alternation: left first;
repetition: greedy), the list of states (last consumed character, remaining
input) after matching `r` at the start of `s`.  `prev` is the character just
before the current position, used for word boundaries.  The fuel only bounds
recursion depth; it is chosen large enough in `reSub` never to run out on the
patterns and inputs of this development (all loop bodies consume input). -/
def mtch : Nat → RE → Option Char → List Char → List (Option Char × List Char)
  | 0, _, _, _ => []
  | _ + 1, RE.eps, prev, s => [(prev, s)]
  | _ + 1, RE.cls p, _, s =>
    match s with
    | [] => []
    | c :: rest => if p c then [(some c, rest)] else []
  | f + 1, RE.seq a b, prev, s =>
    (mtch f a prev s).flatMap (fun pr => mtch f b pr.1 pr.2)
  | f + 1, RE.alt a b, prev, s => mtch f a prev s ++ mtch f b prev s
  | f + 1, RE.star a, prev, s =>
    ((mtch f a prev s).flatMap (fun pr =>
      if pr.2.length < s.length then mtch f (RE.star a) pr.1 pr.2 else [])) ++ [(prev, s)]
  | _ + 1, RE.wordB, prev, s => if isBoundary prev s then [(prev, s)] else []
  | f + 1, RE.nla a, prev, s => if (mtch f a prev s).isEmpty then [(prev, s)] else []

/-- Fuel bound for the matcher; far above the recursion depth needed by the
eight fixed patterns on the short cell texts of this development. -/
def regexFuel : Nat := 2000

/-- One step of `re.sub`: scan left to right; at each position take the
engine's preferred match if there is one, emit the replacement and continue
after the match (threading the last matched character as boundary context),
otherwise copy one character.  The fuel is the length of the string plus one,
which is enough since every step consumes at least one character. -/
def subAux (r : RE) (repl : List Char) : Nat → Option Char → List Char → List Char
  | 0, _, s => s
  | f + 1, prev, s =>
    match s with
    | [] => []
    | c :: rest =>
      match (mtch regexFuel r prev s).head? with
      | some pr =>
        if pr.2.length < s.length then repl ++ subAux r repl f pr.1 pr.2
        else c :: subAux r repl f (some c) rest
      | none => c :: subAux r repl f (some c) rest

/-- Python `re.sub(pattern, repl, s)` for the patterns in use (none of which
can match the empty string). -/
def reSub (r : RE) (repl : String) (s : String) : String :=
  String.mk (subAux r repl.data (s.data.length + 1) none s.data)

/-- Character class matching a single given character. -/
def rchar (c : Char) : RE := RE.cls (fun x => x == c)

/-- Case-insensitive single character (the IGNORECASE flag of the source). -/
def rcharCI (c : Char) : RE := RE.cls (fun x => x.toLower == c)

/-- The digit metacharacter. -/
def rdigit : RE := RE.cls Char.isDigit

/-- Concatenation of a list of expressions. -/
def seqL (l : List RE) : RE := l.foldr RE.seq RE.eps

/-- Exactly n repetitions. -/
def repN (r : RE) : Nat → RE
  | 0 => RE.eps
  | n + 1 => RE.seq r (repN r n)

/-- At most n repetitions, greedy (more repetitions preferred). -/
def upTo (r : RE) : Nat → RE
  | 0 => RE.eps
  | n + 1 => RE.alt (RE.seq r (upTo r n)) RE.eps

/-- Counted repetition with lower bound m and upper bound n, greedy. -/
def repRange (r : RE) (m n : Nat) : RE := RE.seq (repN r m) (upTo r (n - m))

/-- Greedy option. -/
def ropt (r : RE) : RE := RE.alt r RE.eps

/-- Greedy one-or-more. -/
def rplus (r : RE) : RE := RE.seq r (RE.star r)

/-- Case-insensitive literal word. -/
def litCI (s : String) : RE := seqL (s.data.map rcharCI)

/-- The whitespace metacharacter. -/
def rws : RE := RE.cls Char.isWhitespace

/-- The character class of a dash or whitespace. -/
def sepDash : RE := RE.cls (fun c => c == '-' || c.isWhitespace)

/-- The character class of a dash, a dot, or whitespace. -/
def sepDDS : RE := RE.cls (fun c => c == '-' || c == '.' || c.isWhitespace)

/-- Source pattern 1: 16-digit account/credit card numbers, four groups of
four digits with optional dash or whitespace separators, word-bounded. -/
def accountRE : RE :=
  seqL [RE.wordB, repN rdigit 4, ropt sepDash, repN rdigit 4, ropt sepDash,
    repN rdigit 4, ropt sepDash, repN rdigit 4, RE.wordB]

/-- Source pattern 2: bare digit sequences of length 9 to 18, word-bounded. -/
def numberRE : RE := seqL [RE.wordB, repRange rdigit 9 18, RE.wordB]

/-- Source pattern 3: phone-like sequences with optional country code and
optional parentheses and separators. -/
def phoneRE : RE :=
  seqL [RE.wordB,
    ropt (seqL [ropt (rchar '+'), repRange rdigit 1 3, ropt sepDDS]),
    ropt (rchar '('), repN rdigit 3, ropt (rchar ')'), ropt sepDDS,
    repN rdigit 3, ropt sepDDS, repN rdigit 4, RE.wordB]

/-- Local-part characters of the email pattern. -/
def emailLocalC : RE :=
  RE.cls (fun c => c.isAlphanum || c == '.' || c == '_' || c == '%' || c == '+' || c == '-')

/-- Domain characters of the email pattern. -/
def emailDomC : RE := RE.cls (fun c => c.isAlphanum || c == '.' || c == '-')

/-- Top-level-domain characters of the email pattern; the source's class is
written with a literal pipe between the two letter ranges, so the pipe
character itself is included. -/
def tldC : RE := RE.cls (fun c => c.isAlpha || c == '|')

/-- Source pattern 4: email-like tokens. -/
def emailRE : RE :=
  seqL [RE.wordB, rplus emailLocalC, rchar '@', rplus emailDomC, rchar '.',
    repN tldC 2, RE.star tldC, RE.wordB]

/-- Source pattern 5: currency amounts, one to three digits, any number of
comma-separated thousands groups, an optional 2-decimal fraction, word-bounded
and not followed by a percent sign. -/
def amountRE : RE :=
  seqL [RE.wordB, repRange rdigit 1 3,
    RE.star (RE.seq (rchar ',') (repN rdigit 3)),
    ropt (RE.seq (rchar '.') (repN rdigit 2)),
    RE.wordB, RE.nla (rchar '%')]

/-- Source pattern 6: a card brand keyword followed by four digits; the
keyword is matched case-insensitively because of the IGNORECASE flag. -/
def cardRE : RE :=
  seqL [RE.wordB,
    RE.alt (litCI "visa") (RE.alt (litCI "mastercard") (litCI "amex")),
    RE.wordB, RE.star rws, repN rdigit 4]

/-- Source pattern 7: two letters followed by 5 to 10 digits, word-bounded;
with IGNORECASE the letter class covers both cases. -/
def referenceRE : RE :=
  seqL [RE.wordB, repN (RE.cls Char.isAlpha) 2, repRange rdigit 5 10, RE.wordB]

/-- The final substitution of the source: digits, a dot, exactly two digits
and a percent sign. -/
def rateRE : RE := seqL [RE.wordB, rplus rdigit, rchar '.', repN rdigit 2, rchar '%']

/-- The ordered substitution table of `anonymize_financial_info`, in the
insertion order of the source dictionary. -/
def redactionPatterns : List (RE × String) :=
  [(accountRE, "[REDACTED_ACCOUNT]"),
   (numberRE, "[REDACTED_NUMBER]"),
   (phoneRE, "[REDACTED_PHONE]"),
   (emailRE, "[REDACTED_EMAIL]"),
   (amountRE, "[REDACTED_AMOUNT]"),
   (cardRE, "[REDACTED_CARD]"),
   (referenceRE, "[REDACTED_REFERENCE]")]

/-- `anonymize_financial_info` of the source: apply the seven dictionary
substitutions in order, then the special percentage-rate substitution. -/
def anonymize_financial_info (text : String) : String :=
  let t := redactionPatterns.foldl (fun acc pr => reSub pr.1 pr.2 acc) text
  reSub rateRE "[REDACTED_RATE]" t


/-- Python `str.strip()`: drop leading and trailing whitespace. -/
def pyStrip (s : String) : String :=
  String.mk (((s.data.dropWhile Char.isWhitespace).reverse.dropWhile Char.isWhitespace).reverse)

/-- Python `str.lower()` for the ASCII texts in play: lower every character. -/
def pyLower (s : String) : String := String.mk (s.data.map Char.toLower)

/-- Whether `s` starts with `p` (the anchored-prefix regex test of the
detector's second pattern). -/
def strStartsWith (s p : String) : Bool := p.data.isPrefixOf s.data

/-- Whether `s` ends with `p` (the end-anchored regex test of the detector's
first pattern; the stripped text has no trailing newline, so the regex
end-of-string anchor means a plain suffix test). -/
def strEndsWith (s p : String) : Bool := p.data.isSuffixOf s.data

/-- The interrogative/modal words of the second detection pattern, in source
order; the pattern anchors at the start of the text, so each word is tested as
a raw prefix with no trailing word boundary. -/
def questionWords : List String :=
  ["what", "how", "is", "are", "do", "does", "can", "who", "when", "where",
   "why", "shall", "will", "has", "have"]

/-- The word-bounded phrases of the third detection pattern, in source
order. -/
def questionPhrases : List String := ["explain", "describe", "tell me about"]

/-- Containment test for one word-bounded occurrence, scanning every position
while tracking the previous character: the needle must occur with no word
character immediately before or after it (the needles in use begin and end
with letters). -/
def containsWordBAux (w : List Char) : Option Char → List Char → Bool
  | prev, s =>
    (w.isPrefixOf s
        && (match prev with | none => true | some c => !isWordChar c)
        && (match s.drop w.length with | [] => true | c :: _ => !isWordChar c))
      || match s with
         | [] => false
         | c :: rest => containsWordBAux w (some c) rest

/-- Whether the word-bounded needle `w` occurs anywhere in `s`. -/
def containsWordB (w : String) (s : String) : Bool :=
  containsWordBAux w.data none s.data

/-- `is_question` of the source: strip the text; empty or literally "nan" is
not a question; otherwise search the lowered text for a trailing question
mark, a leading interrogative word, or a word-bounded key phrase. -/
def is_question (text : String) : Bool :=
  if pyStrip text = "" ∨ pyStrip text = "nan" then false
  else
    strEndsWith (pyLower (pyStrip text)) "?"
      || questionWords.any (fun w => strStartsWith (pyLower (pyStrip text)) w)
      || questionPhrases.any (fun w => containsWordB w (pyLower (pyStrip text)))

/-- `process_row` of the source: scan the cells left to right; skip a cell
whose stripped text lowers to "main"; on the first cell whose stripped text
passes `is_question`, return that text together with all cells strictly after
it; if no cell qualifies, return no question and an empty list. -/
def process_row : List Cell → Option String × List Cell
  | [] => (none, [])
  | c :: rest =>
    if pyLower (pyStrip (pyStr c)) = "main" then process_row rest
    else if is_question (pyStrip (pyStr c)) then (some (pyStrip (pyStr c)), rest)
    else process_row rest

/-- The cell cleaning step shared by the three list comprehensions of
`format_answer`: drop a cell that is null or whose stripped text is empty,
"nan", or "Main"; render a float cell of value at most 1 as a 2-decimal
percentage; pass every other cell's stripped text through the Redactor. -/
def cleanCell (c : Cell) : Option String :=
  if pdIsNull c = true then none
  else if pyStrip (pyStr c) = "" ∨ pyStrip (pyStr c) = "nan" ∨ pyStrip (pyStr c) = "Main" then none
  else
    match c with
    | Cell.num v =>
      if v ≤ 1 then some (formatPct2 v)
      else some (anonymize_financial_info (pyStrip (pyStr c)))
    | _ => some (anonymize_financial_info (pyStrip (pyStr c)))

/-- A physical row after cleaning: the cleaned cells in order. -/
def cleanRow (r : List Cell) : List String := r.filterMap cleanCell

/-- The markdown pipe table built by `format_answer`: header row, separator
row with one dash cell per header, then the data rows, joined by newlines
into a single entry of the formatted list. -/
def mkTable (headers : List String) (rows : List (List String)) : String :=
  String.intercalate "\n"
    (("| " ++ String.intercalate " | " headers ++ " |")
      :: ("| " ++ String.intercalate " | " (headers.map (fun _ => "---")) ++ " |")
      :: rows.map (fun r => "| " ++ String.intercalate " | " r ++ " |"))

/-- The inner while loop of `format_answer`: greedily consume subsequent rows
whose cleaned cell count equals the header count; stop at the first row whose
cleaned count differs (an all-cleaned-away row has count 0 and therefore also
stops the run).  Returns the consumed cleaned rows and the unconsumed rest. -/
def consumeRows (n : Nat) : List (List Cell) → List (List String) × List (List Cell)
  | [] => ([], [])
  | r :: rest =>
    if (cleanRow r).length = n then
      ((cleanRow r) :: (consumeRows n rest).1, (consumeRows n rest).2)
    else ([], r :: rest)

/-- The outer while loop of `format_answer`, with the cursor expressed as
recursion on the unprocessed suffix and a fuel argument that decreases once
per iteration; `format_answer` supplies fuel `length + 1`, which is more than
the number of iterations since every iteration consumes at least one row.
A row cleaning to the empty list is skipped; a row of at least two cleaned
cells followed by a row with the same cleaned count opens a pipe table that
greedily consumes matching rows; any other row is emitted as one bullet line
per cleaned cell. -/
def formatGoF : Nat → List (List Cell) → List String
  | 0, _ => []
  | _ + 1, [] => []
  | f + 1, r :: rest =>
    if cleanRow r = [] then formatGoF f rest
    else
      match rest with
      | [] => (cleanRow r).map (fun item => "- " ++ item)
      | r2 :: rest2 =>
        if 2 ≤ (cleanRow r).length ∧ (cleanRow r2).length = (cleanRow r).length then
          mkTable (cleanRow r) ((cleanRow r2) :: (consumeRows (cleanRow r).length rest2).1)
            :: formatGoF f (consumeRows (cleanRow r).length rest2).2
        else ((cleanRow r).map (fun item => "- " ++ item)) ++ formatGoF f rest

/-- `format_answer` of the source: run the formatting loop over the
accumulated cell groups and join the formatted entries with newlines. -/
def format_answer (answer_data : List (List Cell)) : String :=
  String.intercalate "\n" (formatGoF (answer_data.length + 1) answer_data)

/-- `create_block` of the source: the fixed front-matter template around a
(sheet, question, answer, source) quadruple. -/
def create_block (sheet q a src : String) : String :=
  "---\nsheet_name: \"" ++ sheet ++ "\"\nquestion: \"" ++ q ++ "\"\nsource: \"" ++
    src ++ "\"\n---\n\n**Answer:**  \n" ++ a ++ "\n\n---\n"

/-- The row loop of `process_sheet`, carrying the open question and the
answer accumulator and returning the emitted (question, formatted answer)
pairs in order.  On a question-bearing row the current block (if any) is
closed unconditionally — the formatted answer is emitted even when empty —
and the accumulator restarts from the row's trailing fragment; on any other
row the row's non-null cells are appended to the accumulator when there is at
least one; after the last row any open block is closed. -/
def processRowsAux : List (List Cell) → Option String → List (List Cell) → List (String × String)
  | [], cq, ca =>
    (match cq with
     | some q => [(q, format_answer ca)]
     | none => [])
  | r :: rs, cq, ca =>
    match (process_row r).1 with
    | some q =>
      (match cq with
       | some q0 => [(q0, format_answer ca)]
       | none => []) ++ processRowsAux rs (some q) [(process_row r).2]
    | none =>
      if r.filter (fun c => !(pdIsNull c)) = [] then processRowsAux rs cq ca
      else processRowsAux rs cq (ca ++ [r.filter (fun c => !(pdIsNull c))])

/-- The (question, formatted answer) pairs emitted for one sheet, in order. -/
def processSheetBlocks (rows : List (List Cell)) : List (String × String) :=
  processRowsAux rows none []

/-- `process_sheet` of the source: render every emitted pair through
`create_block` and join the blocks with newlines. -/
def process_sheet (sheet_name : String) (rows : List (List Cell)) (source : String) : String :=
  String.intercalate "\n"
    ((processSheetBlocks rows).map (fun b => create_block sheet_name b.1 b.2 source))

/-- The numeric cell value -1/2, given in normal form. -/
def qNegHalf : ℚ := ⟨-1, 2, by decide, by decide⟩

/-- The numeric cell value 2, given in normal form. -/
def qTwo : ℚ := ⟨2, 1, by decide, by decide⟩

/-- The digit abstraction used to analyse the Redactor on digit runs: every
decimal digit becomes '5', every other character is kept.  All character
classes of the eight patterns are constant on the digits, so matching is
invariant under this abstraction. -/
def phi (c : Char) : Char := if c.isDigit then '5' else c

/-- The digit abstraction applied to a matcher state. -/
def phiPr (pr : Option Char × List Char) : Option Char × List Char :=
  (pr.1.map phi, pr.2.map phi)

/-- Regular expressions all of whose character classes are invariant under
the digit abstraction. -/
inductive PhiOK : RE → Prop where
  | eps : PhiOK RE.eps
  | cls (p : Char → Bool) (h : ∀ c, p (phi c) = p c) : PhiOK (RE.cls p)
  | seq (a b : RE) (ha : PhiOK a) (hb : PhiOK b) : PhiOK (RE.seq a b)
  | alt (a b : RE) (ha : PhiOK a) (hb : PhiOK b) : PhiOK (RE.alt a b)
  | star (a : RE) (ha : PhiOK a) : PhiOK (RE.star a)
  | wordB : PhiOK RE.wordB
  | nla (a : RE) (ha : PhiOK a) : PhiOK (RE.nla a)

/-- Helper: a character passing the digit test is one of the ten decimal
digits. -/
theorem char_digit_cases (c : Char) (h : c.isDigit = true) :
    c = '0' ∨ c = '1' ∨ c = '2' ∨ c = '3' ∨ c = '4' ∨ c = '5' ∨ c = '6' ∨ c = '7' ∨
      c = '8' ∨ c = '9' := by
  simp only [Char.isDigit, Bool.and_eq_true, decide_eq_true_eq] at h
  obtain ⟨h1, h2⟩ := h
  have h1' : 48 ≤ c.val.toNat := by
    simpa [UInt32.le_def, BitVec.le_def, UInt32.toNat] using h1
  have h2' : c.val.toNat ≤ 57 := by
    simpa [UInt32.le_def, BitVec.le_def, UInt32.toNat] using h2
  have hval : ∀ (d : Char), c.val.toNat = d.val.toNat → c = d :=
    fun d hv => Char.ext (UInt32.toNat.inj hv)
  have hd : c.val.toNat = 48 ∨ c.val.toNat = 49 ∨ c.val.toNat = 50 ∨ c.val.toNat = 51 ∨
      c.val.toNat = 52 ∨ c.val.toNat = 53 ∨ c.val.toNat = 54 ∨ c.val.toNat = 55 ∨
      c.val.toNat = 56 ∨ c.val.toNat = 57 := by omega
  rcases hd with hd | hd | hd | hd | hd | hd | hd | hd | hd | hd
  · exact Or.inl (hval '0' (by rw [hd]; rfl))
  · exact Or.inr (Or.inl (hval '1' (by rw [hd]; rfl)))
  · exact Or.inr (Or.inr (Or.inl (hval '2' (by rw [hd]; rfl))))
  · exact Or.inr (Or.inr (Or.inr (Or.inl (hval '3' (by rw [hd]; rfl)))))
  · exact Or.inr (Or.inr (Or.inr (Or.inr (Or.inl (hval '4' (by rw [hd]; rfl))))))
  · exact Or.inr (Or.inr (Or.inr (Or.inr (Or.inr (Or.inl (hval '5' (by rw [hd]; rfl)))))))
  · exact Or.inr (Or.inr (Or.inr (Or.inr (Or.inr (Or.inr (Or.inl (hval '6' (by rw [hd]; rfl))))))))
  · exact Or.inr (Or.inr (Or.inr (Or.inr (Or.inr (Or.inr (Or.inr (Or.inl (hval '7' (by rw [hd]; rfl)))))))))
  · exact Or.inr (Or.inr (Or.inr (Or.inr (Or.inr (Or.inr (Or.inr (Or.inr (Or.inl (hval '8' (by rw [hd]; rfl))))))))))
  · exact Or.inr (Or.inr (Or.inr (Or.inr (Or.inr (Or.inr (Or.inr (Or.inr (Or.inr (hval '9' (by rw [hd]; rfl))))))))))

/-- The digit abstraction on a digit. -/
theorem phi_of_digit {c : Char} (h : c.isDigit = true) : phi c = '5' := by
  simp [phi, h]

/-- The digit abstraction on a non-digit. -/
theorem phi_of_not_digit {c : Char} (h : c.isDigit = false) : phi c = c := by
  simp [phi, h]

/-- Word-character status is preserved by the digit abstraction. -/
theorem isWordChar_phi (c : Char) : isWordChar (phi c) = isWordChar c := by
  cases hc : c.isDigit with
  | true =>
    rw [phi_of_digit hc]
    have hr : isWordChar c = true := by
      simp [isWordChar, Char.isAlphanum, hc]
    rw [hr]
    decide
  | false => rw [phi_of_not_digit hc]

/-- Word boundaries are preserved by the digit abstraction. -/
theorem isBoundary_phi (prev : Option Char) (s : List Char) :
    isBoundary (prev.map phi) (s.map phi) = isBoundary prev s := by
  cases prev <;> cases s <;> simp [isBoundary, isWordChar_phi]

/-- The matcher commutes with the digit abstraction on patterns whose
character classes are invariant under it: abstracting the boundary context
and the input abstracts the result states one for one, preserving both the
number of alternatives and how much input each consumes. -/
theorem mtch_phi : ∀ (f : Nat) (r : RE), PhiOK r → ∀ (prev : Option Char) (s : List Char),
    mtch f r (prev.map phi) (s.map phi) = (mtch f r prev s).map phiPr := by
  intro f
  induction f with
  | zero => intro r _ prev s; rfl
  | succ f ih =>
    intro r hok prev s
    cases hok with
    | eps => rfl
    | cls p hp =>
      cases s with
      | nil => rfl
      | cons c t =>
        simp only [mtch, List.map_cons]
        rw [hp c]
        cases hpc : p c <;> simp [phiPr]
    | seq a b ha hb =>
      simp only [mtch]
      rw [ih a ha prev s, List.flatMap_map, List.map_flatMap]
      congr 1
      funext pr
      exact ih b hb pr.1 pr.2
    | alt a b ha hb =>
      simp only [mtch]
      rw [ih a ha prev s, ih b hb prev s, List.map_append]
    | star a ha =>
      simp only [mtch]
      rw [ih a ha prev s, List.flatMap_map, List.map_append, List.map_flatMap]
      congr 1
      · congr 1
        funext pr
        simp only [phiPr, List.length_map]
        by_cases hlen : pr.2.length < s.length
        · rw [if_pos hlen, if_pos hlen]
          exact ih (RE.star a) (PhiOK.star a ha) pr.1 pr.2
        · rw [if_neg hlen, if_neg hlen]
          rfl
    | wordB =>
      simp only [mtch]
      rw [isBoundary_phi prev s]
      by_cases h : isBoundary prev s = true
      · rw [if_pos h, if_pos h]
        rfl
      · rw [if_neg h, if_neg h]
        rfl
    | nla a ha =>
      simp only [mtch]
      rw [ih a ha prev s]
      have he : ((mtch f a prev s).map phiPr).isEmpty = (mtch f a prev s).isEmpty := by
        cases (mtch f a prev s) <;> rfl
      rw [he]
      by_cases h : (mtch f a prev s).isEmpty = true
      · rw [if_pos h, if_pos h]
        rfl
      · rw [if_neg h, if_neg h]
        rfl

/-- The matcher transfer at the start of a scan (no previous character). -/
theorem mtch_phi_none (r : RE) (hok : PhiOK r) (s : List Char) :
    mtch regexFuel r none (s.map phi) = (mtch regexFuel r none s).map phiPr :=
  mtch_phi regexFuel r hok none s

/-- A class that is constant on the ten digits is invariant under the digit
abstraction. -/
theorem phiOK_cls_const (p : Char → Bool) (h : ∀ c, c.isDigit = true → p c = p '5') :
    PhiOK (RE.cls p) := by
  refine PhiOK.cls p (fun c => ?_)
  cases hc : c.isDigit with
  | true => rw [phi_of_digit hc, ← h c hc]
  | false => rw [phi_of_not_digit hc]

/-- Digit-constancy of a class checked by evaluating it on the ten digits. -/
theorem phiOK_cls_enum (p : Char → Bool)
    (h : (['0', '1', '2', '3', '4', '5', '6', '7', '8', '9'] : List Char).all
      (fun c => p c == p '5') = true) : PhiOK (RE.cls p) := by
  refine phiOK_cls_const p (fun c hc => ?_)
  simp only [List.all_cons, List.all_nil, Bool.and_eq_true, beq_iff_eq] at h
  rcases char_digit_cases c hc with rfl | rfl | rfl | rfl | rfl | rfl | rfl | rfl | rfl | rfl <;>
    tauto

/-- A single-character class for a non-digit character is invariant. -/
theorem phiOK_rchar (k : Char) (hk : k.isDigit = false) : PhiOK (rchar k) := by
  refine phiOK_cls_const _ (fun c hc => ?_)
  have hne : ∀ d : Char, d.isDigit = true → (d == k) = false := by
    intro d hd
    rw [beq_eq_false_iff_ne]
    intro he
    rw [he] at hd
    rw [hd] at hk
    exact Bool.noConfusion hk
  rw [hne c hc, hne '5' (by decide)]

/-- Digits are unchanged by lower-casing. -/
theorem digit_toLower {c : Char} (h : c.isDigit = true) : c.toLower = c := by
  rcases char_digit_cases c h with rfl | rfl | rfl | rfl | rfl | rfl | rfl | rfl | rfl | rfl <;>
    rfl

/-- A case-insensitive single-character class for a non-digit character is
invariant. -/
theorem phiOK_rcharCI (k : Char) (hk : k.isDigit = false) : PhiOK (rcharCI k) := by
  refine phiOK_cls_const _ (fun c hc => ?_)
  have hne : ∀ d : Char, d.isDigit = true → (d.toLower == k) = false := by
    intro d hd
    rw [digit_toLower hd, beq_eq_false_iff_ne]
    intro he
    rw [he] at hd
    rw [hd] at hk
    exact Bool.noConfusion hk
  rw [hne c hc, hne '5' (by decide)]

/-- Invariance is preserved by list concatenation of patterns. -/
theorem phiOK_seqL : ∀ (l : List RE), (∀ r ∈ l, PhiOK r) → PhiOK (seqL l) := by
  intro l
  induction l with
  | nil => intro _; exact PhiOK.eps
  | cons r rest ih =>
    intro h
    exact PhiOK.seq _ _ (h r (List.mem_cons_self r rest))
      (ih (fun x hx => h x (List.mem_cons_of_mem r hx)))

/-- Invariance is preserved by counted repetition. -/
theorem phiOK_repN (r : RE) (h : PhiOK r) : ∀ n, PhiOK (repN r n)
  | 0 => PhiOK.eps
  | n + 1 => PhiOK.seq _ _ h (phiOK_repN r h n)

/-- Invariance is preserved by bounded repetition. -/
theorem phiOK_upTo (r : RE) (h : PhiOK r) : ∀ n, PhiOK (upTo r n)
  | 0 => PhiOK.eps
  | n + 1 => PhiOK.alt _ _ (PhiOK.seq _ _ h (phiOK_upTo r h n)) PhiOK.eps

/-- Invariance is preserved by counted ranges. -/
theorem phiOK_repRange (r : RE) (h : PhiOK r) (m n : Nat) : PhiOK (repRange r m n) :=
  PhiOK.seq _ _ (phiOK_repN r h m) (phiOK_upTo r h (n - m))

/-- Invariance is preserved by option. -/
theorem phiOK_ropt (r : RE) (h : PhiOK r) : PhiOK (ropt r) :=
  PhiOK.alt _ _ h PhiOK.eps

/-- Invariance is preserved by one-or-more. -/
theorem phiOK_rplus (r : RE) (h : PhiOK r) : PhiOK (rplus r) :=
  PhiOK.seq _ _ h (PhiOK.star _ h)

/-- Invariance of the case-insensitive literals, whose characters are all
letters. -/
theorem phiOK_litCI (s : String) (h : ∀ k ∈ s.data, k.isDigit = false) :
    PhiOK (litCI s) := by
  refine phiOK_seqL _ ?_
  intro r hr
  rw [List.mem_map] at hr
  obtain ⟨k, hk, rfl⟩ := hr
  exact phiOK_rcharCI k (h k hk)

/-- The account pattern is invariant under the digit abstraction. -/
theorem phiOK_accountRE : PhiOK accountRE := by
  refine phiOK_seqL _ ?_
  intro r hr
  simp only [List.mem_cons, List.not_mem_nil, or_false] at hr
  rcases hr with rfl | rfl | rfl | rfl | rfl | rfl | rfl | rfl | rfl
  · exact PhiOK.wordB
  · exact phiOK_repN _ (phiOK_cls_enum _ (by decide)) 4
  · exact phiOK_ropt _ (phiOK_cls_enum _ (by decide))
  · exact phiOK_repN _ (phiOK_cls_enum _ (by decide)) 4
  · exact phiOK_ropt _ (phiOK_cls_enum _ (by decide))
  · exact phiOK_repN _ (phiOK_cls_enum _ (by decide)) 4
  · exact phiOK_ropt _ (phiOK_cls_enum _ (by decide))
  · exact phiOK_repN _ (phiOK_cls_enum _ (by decide)) 4
  · exact PhiOK.wordB

/-- The long-number pattern is invariant under the digit abstraction. -/
theorem phiOK_numberRE : PhiOK numberRE := by
  refine phiOK_seqL _ ?_
  intro r hr
  simp only [List.mem_cons, List.not_mem_nil, or_false] at hr
  rcases hr with rfl | rfl | rfl
  · exact PhiOK.wordB
  · exact phiOK_repRange _ (phiOK_cls_enum _ (by decide)) 9 18
  · exact PhiOK.wordB

/-- The phone pattern is invariant under the digit abstraction. -/
theorem phiOK_phoneRE : PhiOK phoneRE := by
  refine phiOK_seqL _ ?_
  intro r hr
  simp only [List.mem_cons, List.not_mem_nil, or_false] at hr
  rcases hr with rfl | rfl | rfl | rfl | rfl | rfl | rfl | rfl | rfl | rfl
  · exact PhiOK.wordB
  · refine phiOK_ropt _ (phiOK_seqL _ ?_)
    intro r hr
    simp only [List.mem_cons, List.not_mem_nil, or_false] at hr
    rcases hr with rfl | rfl | rfl
    · exact phiOK_ropt _ (phiOK_rchar '+' (by decide))
    · exact phiOK_repRange _ (phiOK_cls_enum _ (by decide)) 1 3
    · exact phiOK_ropt _ (phiOK_cls_enum _ (by decide))
  · exact phiOK_ropt _ (phiOK_rchar '(' (by decide))
  · exact phiOK_repN _ (phiOK_cls_enum _ (by decide)) 3
  · exact phiOK_ropt _ (phiOK_rchar ')' (by decide))
  · exact phiOK_ropt _ (phiOK_cls_enum _ (by decide))
  · exact phiOK_repN _ (phiOK_cls_enum _ (by decide)) 3
  · exact phiOK_ropt _ (phiOK_cls_enum _ (by decide))
  · exact phiOK_repN _ (phiOK_cls_enum _ (by decide)) 4
  · exact PhiOK.wordB

/-- The email pattern is invariant under the digit abstraction. -/
theorem phiOK_emailRE : PhiOK emailRE := by
  refine phiOK_seqL _ ?_
  intro r hr
  simp only [List.mem_cons, List.not_mem_nil, or_false] at hr
  rcases hr with rfl | rfl | rfl | rfl | rfl | rfl | rfl | rfl
  · exact PhiOK.wordB
  · exact phiOK_rplus _ (phiOK_cls_enum _ (by decide))
  · exact phiOK_rchar '@' (by decide)
  · exact phiOK_rplus _ (phiOK_cls_enum _ (by decide))
  · exact phiOK_rchar '.' (by decide)
  · exact phiOK_repN _ (phiOK_cls_enum _ (by decide)) 2
  · exact PhiOK.star _ (phiOK_cls_enum _ (by decide))
  · exact PhiOK.wordB

/-- The amount pattern is invariant under the digit abstraction. -/
theorem phiOK_amountRE : PhiOK amountRE := by
  refine phiOK_seqL _ ?_
  intro r hr
  simp only [List.mem_cons, List.not_mem_nil, or_false] at hr
  rcases hr with rfl | rfl | rfl | rfl | rfl | rfl
  · exact PhiOK.wordB
  · exact phiOK_repRange _ (phiOK_cls_enum _ (by decide)) 1 3
  · exact PhiOK.star _ (PhiOK.seq _ _ (phiOK_rchar ',' (by decide))
      (phiOK_repN _ (phiOK_cls_enum _ (by decide)) 3))
  · exact phiOK_ropt _ (PhiOK.seq _ _ (phiOK_rchar '.' (by decide))
      (phiOK_repN _ (phiOK_cls_enum _ (by decide)) 2))
  · exact PhiOK.wordB
  · exact PhiOK.nla _ (phiOK_rchar '%' (by decide))

/-- The card pattern is invariant under the digit abstraction. -/
theorem phiOK_cardRE : PhiOK cardRE := by
  refine phiOK_seqL _ ?_
  intro r hr
  simp only [List.mem_cons, List.not_mem_nil, or_false] at hr
  rcases hr with rfl | rfl | rfl | rfl | rfl
  · exact PhiOK.wordB
  · exact PhiOK.alt _ _ (phiOK_litCI "visa" (by decide))
      (PhiOK.alt _ _ (phiOK_litCI "mastercard" (by decide)) (phiOK_litCI "amex" (by decide)))
  · exact PhiOK.wordB
  · exact PhiOK.star _ (phiOK_cls_enum _ (by decide))
  · exact phiOK_repN _ (phiOK_cls_enum _ (by decide)) 4

/-- The reference pattern is invariant under the digit abstraction. -/
theorem phiOK_referenceRE : PhiOK referenceRE := by
  refine phiOK_seqL _ ?_
  intro r hr
  simp only [List.mem_cons, List.not_mem_nil, or_false] at hr
  rcases hr with rfl | rfl | rfl | rfl
  · exact PhiOK.wordB
  · exact phiOK_repN _ (phiOK_cls_enum _ (by decide)) 2
  · exact phiOK_repRange _ (phiOK_cls_enum _ (by decide)) 5 10
  · exact PhiOK.wordB

/-- The rate pattern is invariant under the digit abstraction. -/
theorem phiOK_rateRE : PhiOK rateRE := by
  refine phiOK_seqL _ ?_
  intro r hr
  simp only [List.mem_cons, List.not_mem_nil, or_false] at hr
  rcases hr with rfl | rfl | rfl | rfl | rfl
  · exact PhiOK.wordB
  · exact phiOK_rplus _ (phiOK_cls_enum _ (by decide))
  · exact phiOK_rchar '.' (by decide)
  · exact phiOK_repN _ (phiOK_cls_enum _ (by decide)) 2
  · exact phiOK_rchar '%' (by decide)

/-- A pattern that is anchored on a word boundary cannot match where no word
boundary holds. -/
theorem mtch_wordB_seq_nil (f : Nat) (R : RE) (prev : Option Char) (s : List Char)
    (hb : isBoundary prev s = false) : mtch f (RE.seq RE.wordB R) prev s = [] := by
  cases f with
  | zero => rfl
  | succ f =>
    cases f with
    | zero => rfl
    | succ f => simp [mtch, hb]

/-- The scan on an empty remainder substitutes nothing. -/
theorem subAux_nil (r : RE) (repl : List Char) (f : Nat) (prev : Option Char) :
    subAux r repl f prev [] = [] := by
  cases f <;> rfl

/-- One scan step at a position where the pattern does not match: copy the
character and continue. -/
theorem subAux_step_nomatch (r : RE) (repl : List Char) (f : Nat) (prev : Option Char)
    (c : Char) (rest : List Char) (hm : mtch regexFuel r prev (c :: rest) = []) :
    subAux r repl (f + 1) prev (c :: rest) = c :: subAux r repl f (some c) rest := by
  simp only [subAux, hm, List.head?_nil]

/-- One scan step at a position where the pattern consumes the whole rest of
the input: emit the replacement and stop. -/
theorem subAux_step_match (r : RE) (repl : List Char) (f : Nat) (prev : Option Char)
    (c : Char) (rest : List Char) (pr : Option Char × List Char)
    (hm : mtch regexFuel r prev (c :: rest) = [pr]) (h2 : pr.2 = []) :
    subAux r repl (f + 1) prev (c :: rest) = repl := by
  simp only [subAux, hm, List.head?_cons]
  rw [h2]
  simp only [List.length_nil, List.length_cons]
  rw [if_pos (Nat.succ_pos rest.length)]
  simp [subAux_nil]

/-- Inside a run of digits there is no word boundary, so a boundary-anchored
pattern matches nowhere after the first position and the scan copies the
rest of the run verbatim. -/
theorem subAux_digits_inner (R : RE) (repl : List Char) :
    ∀ (f : Nat) (d : Char) (rest : List Char), d.isDigit = true →
      (∀ c ∈ rest, c.isDigit = true) →
      subAux (RE.seq RE.wordB R) repl f (some d) rest = rest := by
  intro f
  induction f with
  | zero => intro d rest _ _; rfl
  | succ f ih =>
    intro d rest hd hrest
    cases rest with
    | nil => rfl
    | cons c rest' =>
      have hc : c.isDigit = true := hrest c (List.mem_cons_self c rest')
      have hb : isBoundary (some d) (c :: rest') = false := by
        simp [isBoundary, isWordChar, Char.isAlphanum, hd, hc]
      have hm : mtch regexFuel (RE.seq RE.wordB R) (some d) (c :: rest') = [] :=
        mtch_wordB_seq_nil regexFuel R (some d) (c :: rest') hb
      simp only [subAux, hm, List.head?_nil]
      rw [ih c rest' hc (fun x hx => hrest x (List.mem_cons_of_mem c hx))]

/-- The digit abstraction turns a digit run into a run of '5's. -/
theorem map_phi_digits : ∀ (l : List Char), (∀ c ∈ l, c.isDigit = true) →
    l.map phi = List.replicate l.length '5' := by
  intro l
  induction l with
  | nil => intro _; rfl
  | cons c rest ih =>
    intro h
    simp only [List.map_cons, List.length_cons, List.replicate_succ]
    rw [phi_of_digit (h c (List.mem_cons_self c rest)),
      ih (fun x hx => h x (List.mem_cons_of_mem c hx))]

/-- A boundary-anchored invariant pattern that does not match the canonical
'5'-run of the same length leaves a digit run entirely unchanged. -/
theorem reSub_digits_id (P R : RE) (hshape : P = RE.seq RE.wordB R) (hok : PhiOK P)
    (repl : String) (l : List Char) (hl : ∀ c ∈ l, c.isDigit = true)
    (hcanon : mtch regexFuel P none (List.replicate l.length '5') = []) :
    reSub P repl (String.mk l) = String.mk l := by
  simp only [reSub]
  refine congrArg String.mk ?_
  cases l with
  | nil => rfl
  | cons c rest =>
    have hm : mtch regexFuel P none (c :: rest) = [] := by
      have ht := mtch_phi_none P hok (c :: rest)
      rw [map_phi_digits _ hl, hcanon] at ht
      exact (List.map_eq_nil_iff.mp ht.symm)
    rw [subAux_step_nomatch P repl.data (c :: rest).length none c rest hm]
    rw [hshape]
    exact congrArg (c :: ·)
      (subAux_digits_inner R repl.data _ c rest (hl c (List.mem_cons_self c rest))
        (fun x hx => hl x (List.mem_cons_of_mem c hx)))

/-- A boundary-anchored invariant pattern that consumes the whole canonical
'5'-run of the same length replaces a nonempty digit run by the bare
replacement text. -/
theorem reSub_digits_full (P : RE) (hok : PhiOK P)
    (repl : String) (l : List Char) (hl : ∀ c ∈ l, c.isDigit = true)
    (hcanon : mtch regexFuel P none (List.replicate l.length '5') = [(some '5', [])]) :
    ∀ (c : Char) (rest : List Char), l = c :: rest → reSub P repl (String.mk l) = repl := by
  intro c rest hcons
  subst hcons
  obtain ⟨pr, hpr, hrest⟩ : ∃ pr, mtch regexFuel P none (c :: rest) = [pr] ∧ pr.2 = [] := by
    have ht := mtch_phi_none P hok (c :: rest)
    rw [map_phi_digits _ hl, hcanon] at ht
    rcases hm : mtch regexFuel P none (c :: rest) with _ | ⟨pr, tl⟩
    · rw [hm] at ht
      simp at ht
    · rw [hm] at ht
      simp only [List.map_cons] at ht
      injection ht with hhead htail
      have h2 : pr.2.map phi = [] := congrArg Prod.snd hhead.symm
      exact ⟨pr, by rw [List.map_eq_nil_iff.mp htail.symm], List.map_eq_nil_iff.mp h2⟩
  simp only [reSub]
  show String.mk (subAux P repl.data ((c :: rest).length + 1) none (c :: rest)) = repl
  rw [subAux_step_match P repl.data (c :: rest).length none c rest pr hpr hrest]

/-- The substitution pipeline written out in its source order. -/
theorem anonymize_expand (s : String) :
    anonymize_financial_info s =
      reSub rateRE "[REDACTED_RATE]"
        (reSub referenceRE "[REDACTED_REFERENCE]"
          (reSub cardRE "[REDACTED_CARD]"
            (reSub amountRE "[REDACTED_AMOUNT]"
              (reSub emailRE "[REDACTED_EMAIL]"
                (reSub phoneRE "[REDACTED_PHONE]"
                  (reSub numberRE "[REDACTED_NUMBER]"
                    (reSub accountRE "[REDACTED_ACCOUNT]" s))))))) := rfl

/-- The canonical account-pattern results on '5'-runs of length at most 18:
no match except at exactly 16 digits. -/
theorem accountRE_canon_nil (n : Nat) (hn : n ≤ 18) (h16 : n ≠ 16) :
    mtch regexFuel accountRE none (List.replicate n '5') = [] := by
  interval_cases n <;> first | exact absurd rfl h16 | decide

/-- The canonical account-pattern result at 16 digits: one full match. -/
theorem accountRE_canon_16 :
    mtch regexFuel accountRE none (List.replicate 16 '5') = [(some '5', [])] := by decide

/-- The canonical number-pattern results on '5'-runs shorter than 9: no
match. -/
theorem numberRE_canon_nil (n : Nat) (hn : n ≤ 8) :
    mtch regexFuel numberRE none (List.replicate n '5') = [] := by
  interval_cases n <;> decide

/-- The canonical number-pattern results on '5'-runs of 9 to 18 digits: one
full match. -/
theorem numberRE_canon_full (n : Nat) (h1 : 9 ≤ n) (h2 : n ≤ 18) :
    mtch regexFuel numberRE none (List.replicate n '5') = [(some '5', [])] := by
  interval_cases n <;> decide

/-- The canonical phone-pattern results on '5'-runs shorter than 9: no
match. -/
theorem phoneRE_canon_nil (n : Nat) (hn : n ≤ 8) :
    mtch regexFuel phoneRE none (List.replicate n '5') = [] := by
  interval_cases n <;> decide

/-- The canonical email-pattern results on '5'-runs shorter than 9: no
match. -/
theorem emailRE_canon_nil (n : Nat) (hn : n ≤ 8) :
    mtch regexFuel emailRE none (List.replicate n '5') = [] := by
  interval_cases n <;> decide

/-- The canonical amount-pattern results on '5'-runs of 4 to 8 digits: no
match, because the leading group takes at most three digits and the
following word boundary then falls inside the run. -/
theorem amountRE_canon_nil (n : Nat) (h1 : 4 ≤ n) (h2 : n ≤ 8) :
    mtch regexFuel amountRE none (List.replicate n '5') = [] := by
  interval_cases n <;> decide

/-- The canonical amount-pattern results on '5'-runs of 1 to 3 digits: one
full match. -/
theorem amountRE_canon_full (n : Nat) (h1 : 1 ≤ n) (h2 : n ≤ 3) :
    mtch regexFuel amountRE none (List.replicate n '5') = [(some '5', [])] := by
  interval_cases n <;> decide

/-- The canonical card-pattern results on '5'-runs shorter than 9: no
match. -/
theorem cardRE_canon_nil (n : Nat) (hn : n ≤ 8) :
    mtch regexFuel cardRE none (List.replicate n '5') = [] := by
  interval_cases n <;> decide

/-- The canonical reference-pattern results on '5'-runs shorter than 9: no
match. -/
theorem referenceRE_canon_nil (n : Nat) (hn : n ≤ 8) :
    mtch regexFuel referenceRE none (List.replicate n '5') = [] := by
  interval_cases n <;> decide

/-- The canonical rate-pattern results on '5'-runs shorter than 9: no
match. -/
theorem rateRE_canon_nil (n : Nat) (hn : n ≤ 8) :
    mtch regexFuel rateRE none (List.replicate n '5') = [] := by
  interval_cases n <;> decide

/-- Helper: a text whose lowered stripped form ends in a question mark passes
the detector (such a text is neither empty nor the literal "nan"). -/
theorem isq_of_endsQ (t : String) (h : strEndsWith (pyLower (pyStrip t)) "?" = true) :
    is_question t = true := by
  by_cases h1 : pyStrip t = ""
  · rw [h1] at h
    exact absurd h (by decide)
  · by_cases h2 : pyStrip t = "nan"
    · rw [h2] at h
      exact absurd h (by decide)
    · unfold is_question
      rw [if_neg (by simp [h1, h2])]
      simp [h]

/-- Helper: a text whose lowered stripped form starts with one of the
interrogative words passes the detector (no such text is empty or "nan"). -/
theorem isq_of_keyword (t : String)
    (h : (questionWords.any (fun w => strStartsWith (pyLower (pyStrip t)) w)) = true) :
    is_question t = true := by
  by_cases h1 : pyStrip t = ""
  · rw [h1] at h
    exact absurd h (by decide)
  · by_cases h2 : pyStrip t = "nan"
    · rw [h2] at h
      exact absurd h (by decide)
    · unfold is_question
      rw [if_neg (by simp [h1, h2])]
      simp [h]

/-- Helper: a text passing the detector is nonempty. -/
theorem isq_ne_empty (s : String) (h : is_question s = true) : s ≠ "" := by
  intro he
  rw [he] at h
  exact absurd h (by decide)

/-- Helper: a question returned by the Row Segmenter passes the detector. -/
theorem process_row_some_isq :
    ∀ (row : List Cell) (q : String),
      (process_row row).1 = some q → is_question q = true := by
  intro row
  induction row with
  | nil =>
    intro q h
    simp [process_row] at h
  | cons c rest ih =>
    intro q h
    simp only [process_row] at h
    by_cases h1 : pyLower (pyStrip (pyStr c)) = "main"
    · rw [if_pos h1] at h
      exact ih q h
    · rw [if_neg h1] at h
      by_cases h2 : is_question (pyStrip (pyStr c)) = true
      · rw [if_pos h2] at h
        dsimp only at h
        cases h
        exact h2
      · rw [if_neg h2] at h
        exact ih q h

/-- Helper: every block emitted by the sheet loop carries either the open
question of the entry state or a question produced by the Row Segmenter, so
under the stated invariant every emitted question is nonempty. -/
theorem aux_q_ne :
    ∀ (rs : List (List Cell)) (cq : Option String) (ca : List (List Cell)),
      (∀ q0, cq = some q0 → q0 ≠ "") →
      ∀ b ∈ processRowsAux rs cq ca, b.1 ≠ "" := by
  intro rs
  induction rs with
  | nil =>
    intro cq ca hq b hb
    cases cq with
    | none => simp [processRowsAux] at hb
    | some q =>
      simp [processRowsAux] at hb
      rw [hb]
      exact hq q rfl
  | cons r rs ih =>
    intro cq ca hq b hb
    rcases hpr : (process_row r).1 with _ | q
    · simp only [processRowsAux, hpr] at hb
      by_cases hc : r.filter (fun c => !(pdIsNull c)) = []
      · rw [if_pos hc] at hb
        exact ih cq ca hq b hb
      · rw [if_neg hc] at hb
        exact ih cq _ hq b hb
    · simp only [processRowsAux, hpr] at hb
      rw [List.mem_append] at hb
      rcases hb with hb | hb
      · cases cq with
        | none => simp at hb
        | some q0 =>
          simp at hb
          rw [hb]
          exact hq q0 rfl
      · refine ih (some q) [(process_row r).2] ?_ b hb
        intro q0 hq0
        cases hq0
        exact isq_ne_empty q (process_row_some_isq r q hpr)

/-- Helper: with no open question and no emitted block yet, the sheet loop's
result does not depend on the contents of the answer accumulator, because the
accumulator is reset before the first emission. -/
theorem aux_ca_irrel :
    ∀ (rs : List (List Cell)) (ca ca' : List (List Cell)),
      processRowsAux rs none ca = processRowsAux rs none ca' := by
  intro rs
  induction rs with
  | nil =>
    intro ca ca'
    rfl
  | cons r rs ih =>
    intro ca ca'
    rcases hpr : (process_row r).1 with _ | q
    · simp only [processRowsAux, hpr]
      by_cases hc : r.filter (fun c => !(pdIsNull c)) = []
      · rw [if_pos hc, if_pos hc]
        exact ih ca ca'
      · rw [if_neg hc, if_neg hc]
        exact ih _ _
    · simp only [processRowsAux, hpr]

/-- Helper: rows yielding no question, processed while no question is open,
leave the emitted blocks unchanged. -/
theorem aux_prepend_none (rows : List (List Cell)) :
    ∀ (pre : List (List Cell)), (∀ r ∈ pre, (process_row r).1 = none) →
      ∀ ca, processRowsAux (pre ++ rows) none ca = processRowsAux rows none ca := by
  intro pre
  induction pre with
  | nil =>
    intro _ ca
    rfl
  | cons p pre ih =>
    intro h ca
    have hp : (process_row p).1 = none := h p (List.mem_cons_self p pre)
    have h' : ∀ r ∈ pre, (process_row r).1 = none :=
      fun r hr => h r (List.mem_cons_of_mem p hr)
    simp only [List.cons_append, processRowsAux, hp]
    by_cases hc : p.filter (fun c => !(pdIsNull c)) = []
    · rw [if_pos hc]
      exact ih h' ca
    · rw [if_neg hc]
      exact (ih h' (ca ++ [p.filter (fun c => !(pdIsNull c))])).trans (aux_ca_irrel rows _ ca)

/-- Claim C1, counterexample: a sheet consisting of the single row
["What is X?"] emits one block whose formatted answer is the empty string —
the code closes an open block unconditionally and never checks the formatted
answer for emptiness, so a block with an empty answer is emitted rather than
dropped. -/
theorem c1_counterexample :
    processSheetBlocks [[Cell.text "What is X?"]] = [("What is X?", "")] := by decide

/-- Claim C1, amended: every emitted block has a non-empty question, but a
block whose formatted answer is empty is still emitted (not dropped): there
is a sheet emitting a block with an empty answer. -/
theorem c1_blocks_nonempty_question :
    (∀ (rows : List (List Cell)) (b : String × String),
      b ∈ processSheetBlocks rows → b.1 ≠ "") ∧
    (∃ (rows : List (List Cell)) (b : String × String),
      b ∈ processSheetBlocks rows ∧ b.2 = "") := by
  constructor
  · intro rows b hb
    exact aux_q_ne rows none [] (fun q0 h => by simp at h) b hb
  · exact ⟨[[Cell.text "What is X?"]], ("What is X?", ""), by decide, rfl⟩

/-- Claim C1, witness: the amended theorem applied to the concrete
one-question sheet. -/
theorem c1_witness : ("What is X?", ("" : String)).1 ≠ "" :=
  c1_blocks_nonempty_question.1 [[Cell.text "What is X?"]] ("What is X?", "") (by decide)

/-- Claim C2, counterexample: inside a table run a row that cleans away
entirely (here the single cell "Main") terminates the run — the following
matching row ["p", "q"] becomes bullet lines, not a data row of the table —
so the actual output differs from the single four-line table the claim
demands. -/
theorem c2_counterexample :
    format_answer [[Cell.text "A", Cell.text "B"], [Cell.text "x", Cell.text "y"],
        [Cell.text "Main"], [Cell.text "p", Cell.text "q"]]
      = "| A | B |\n| --- | --- |\n| x | y |\n- p\n- q" ∧
    ("| A | B |\n| --- | --- |\n| x | y |\n- p\n- q" : String)
      ≠ "| A | B |\n| --- | --- |\n| x | y |\n| p | q |" := by decide

/-- Claim C2, amended: a row that cleans away entirely produces no output
line and is skipped when encountered at the top of the formatting loop, but
during an in-progress table run it terminates the run: the greedy consumption
stops at it because its cleaned cell count 0 differs from the header count. -/
theorem c2_empty_row_skip_or_stop :
    (∀ (r : List Cell) (rest : List (List Cell)), cleanRow r = [] →
      format_answer (r :: rest) = format_answer rest) ∧
    (∀ (n : Nat) (r : List Cell) (rest : List (List Cell)), cleanRow r = [] → 2 ≤ n →
      consumeRows n (r :: rest) = ([], r :: rest)) := by
  constructor
  · intro r rest h
    simp only [format_answer, List.length_cons]
    simp only [formatGoF, h, if_pos]
  · intro n r rest h hn
    simp only [consumeRows, h, List.length_nil]
    rw [if_neg (by omega)]

/-- Claim C2, witness: the amended theorem applied to a concrete
all-cleaned-away row. -/
theorem c2_witness :
    format_answer [[Cell.text "Main"], [Cell.text "ok"]] = format_answer [[Cell.text "ok"]] ∧
    consumeRows 2 [[Cell.text "Main"], [Cell.text "ok"]]
      = ([], [[Cell.text "Main"], [Cell.text "ok"]]) :=
  ⟨c2_empty_row_skip_or_stop.1 [Cell.text "Main"] [[Cell.text "ok"]] (by decide),
   c2_empty_row_skip_or_stop.2 2 [Cell.text "Main"] [[Cell.text "ok"]] (by decide) (by decide)⟩

/-- Claim C3, counterexample: the numeric cell -1/2 lies outside [0, 1], yet
the cleaner renders it as the percentage "-50.00%" instead of passing its
text through the Redactor (which would give a different string): the source
guard is `cell <= 1` with no lower bound. -/
theorem c3_counterexample :
    cleanCell (Cell.num qNegHalf) = some "-50.00%" ∧
    anonymize_financial_info (pyStrip (pyStr (Cell.num qNegHalf)))
      = "-[REDACTED_AMOUNT].[REDACTED_AMOUNT]" ∧
    ("-50.00%" : String) ≠ "-[REDACTED_AMOUNT].[REDACTED_AMOUNT]" := by decide

/-- Claim C3, amended: every float cell with value at most 1 — including
negative values — that survives the drop filter is rendered as the 2-decimal
percentage; a float cell passes through the Redactor only when its value
exceeds 1. -/
theorem c3_float_branch (v : ℚ)
    (hdrop : ¬(pyStrip (pyStr (Cell.num v)) = "" ∨ pyStrip (pyStr (Cell.num v)) = "nan" ∨
      pyStrip (pyStr (Cell.num v)) = "Main")) :
    (v ≤ 1 → cleanCell (Cell.num v) = some (formatPct2 v)) ∧
    (1 < v → cleanCell (Cell.num v)
      = some (anonymize_financial_info (pyStrip (pyStr (Cell.num v))))) := by
  constructor
  · intro hv
    simp only [cleanCell]
    rw [if_neg (by simp [pdIsNull]), if_neg hdrop]
    rw [if_pos hv]
  · intro hv
    simp only [cleanCell]
    rw [if_neg (by simp [pdIsNull]), if_neg hdrop]
    rw [if_neg (not_le.mpr hv)]

/-- Claim C3, witness: the amended theorem applied at the values -1/2 and 2. -/
theorem c3_witness :
    cleanCell (Cell.num qNegHalf) = some (formatPct2 qNegHalf) ∧
    cleanCell (Cell.num qTwo)
      = some (anonymize_financial_info (pyStrip (pyStr (Cell.num qTwo)))) :=
  ⟨(c3_float_branch qNegHalf (by decide)).1 (by decide),
   (c3_float_branch qTwo (by decide)).2 (by decide)⟩

/-- Claim C4, counterexample: the Redactor is not idempotent.  On
"visa 123456" the card substitution consumes "visa 1234" and leaves "56"
adjacent to the placeholder's closing bracket; on a second pass that "56"
now sits at a word boundary and the amount pattern replaces it, so applying
the pipeline twice differs from applying it once. -/
theorem c4_counterexample :
    anonymize_financial_info "visa 123456" = "[REDACTED_CARD]56" ∧
    anonymize_financial_info (anonymize_financial_info "visa 123456")
      = "[REDACTED_CARD][REDACTED_AMOUNT]" ∧
    anonymize_financial_info (anonymize_financial_info "visa 123456")
      ≠ anonymize_financial_info "visa 123456" := by decide

/-- Claim C4, amended: the pipeline is not idempotent in general (a later
substitution can expose a digit run at a fresh word boundary for an
earlier-ordered pattern to match on a second pass), but each placeholder
token itself is a fixed point of the full pipeline: no placeholder matches
any of the eight patterns. -/
theorem c4_placeholder_fixed_points :
    anonymize_financial_info "[REDACTED_ACCOUNT]" = "[REDACTED_ACCOUNT]" ∧
    anonymize_financial_info "[REDACTED_NUMBER]" = "[REDACTED_NUMBER]" ∧
    anonymize_financial_info "[REDACTED_PHONE]" = "[REDACTED_PHONE]" ∧
    anonymize_financial_info "[REDACTED_EMAIL]" = "[REDACTED_EMAIL]" ∧
    anonymize_financial_info "[REDACTED_AMOUNT]" = "[REDACTED_AMOUNT]" ∧
    anonymize_financial_info "[REDACTED_CARD]" = "[REDACTED_CARD]" ∧
    anonymize_financial_info "[REDACTED_REFERENCE]" = "[REDACTED_REFERENCE]" ∧
    anonymize_financial_info "[REDACTED_RATE]" = "[REDACTED_RATE]" := by decide

/-- Claim C5, counterexample: the standalone four-digit token "5000" is left
completely unchanged by the pipeline — the amount pattern requires one to
three leading digits (with optional comma-separated groups), so it does not
match a bare four-digit run, and no other pattern applies. -/
theorem c5_counterexample :
    anonymize_financial_info "5000" = "5000" ∧ ("5000" : String) ≠ "[REDACTED_AMOUNT]" := by decide

/-- Claim C5, amended: the pipeline on a standalone digit run is classified
by its length: runs of 1 to 3 digits are replaced by the amount placeholder
(the fifth substitution's leading group takes at most three digits); bare
runs of 4 to 8 digits match no substitution at all and pass through the
whole pipeline unchanged; runs of 9 to 18 digits are replaced by the earlier
long-number pattern with the number placeholder — except exactly 16 digits,
which the 16-digit account pattern catches first.  In particular no
bare run of four or more digits is ever replaced by the amount placeholder. -/
theorem c5_digit_run_classification (l : List Char) (hl : ∀ c ∈ l, c.isDigit = true) :
    (1 ≤ l.length → l.length ≤ 3 →
      anonymize_financial_info (String.mk l) = "[REDACTED_AMOUNT]") ∧
    (4 ≤ l.length → l.length ≤ 8 →
      anonymize_financial_info (String.mk l) = String.mk l) ∧
    (9 ≤ l.length → l.length ≤ 18 → l.length ≠ 16 →
      anonymize_financial_info (String.mk l) = "[REDACTED_NUMBER]") ∧
    (l.length = 16 →
      anonymize_financial_info (String.mk l) = "[REDACTED_ACCOUNT]") := by
  refine ⟨fun h1 h3 => ?_, fun h4 h8 => ?_, fun h9 h18 h16 => ?_, fun h16 => ?_⟩
  · obtain ⟨c, rest, rfl⟩ : ∃ c rest, l = c :: rest := by
      cases l with
      | nil => simp at h1
      | cons c rest => exact ⟨c, rest, rfl⟩
    rw [anonymize_expand]
    rw [reSub_digits_id accountRE _ rfl phiOK_accountRE _ _ hl
      (accountRE_canon_nil _ (by omega) (by omega))]
    rw [reSub_digits_id numberRE _ rfl phiOK_numberRE _ _ hl
      (numberRE_canon_nil _ (by omega))]
    rw [reSub_digits_id phoneRE _ rfl phiOK_phoneRE _ _ hl
      (phoneRE_canon_nil _ (by omega))]
    rw [reSub_digits_id emailRE _ rfl phiOK_emailRE _ _ hl
      (emailRE_canon_nil _ (by omega))]
    rw [reSub_digits_full amountRE phiOK_amountRE _ _ hl
      (amountRE_canon_full _ (by omega) (by omega)) c rest rfl]
    decide
  · rw [anonymize_expand]
    rw [reSub_digits_id accountRE _ rfl phiOK_accountRE _ _ hl
      (accountRE_canon_nil _ (by omega) (by omega))]
    rw [reSub_digits_id numberRE _ rfl phiOK_numberRE _ _ hl
      (numberRE_canon_nil _ (by omega))]
    rw [reSub_digits_id phoneRE _ rfl phiOK_phoneRE _ _ hl
      (phoneRE_canon_nil _ (by omega))]
    rw [reSub_digits_id emailRE _ rfl phiOK_emailRE _ _ hl
      (emailRE_canon_nil _ (by omega))]
    rw [reSub_digits_id amountRE _ rfl phiOK_amountRE _ _ hl
      (amountRE_canon_nil _ (by omega) (by omega))]
    rw [reSub_digits_id cardRE _ rfl phiOK_cardRE _ _ hl
      (cardRE_canon_nil _ (by omega))]
    rw [reSub_digits_id referenceRE _ rfl phiOK_referenceRE _ _ hl
      (referenceRE_canon_nil _ (by omega))]
    rw [reSub_digits_id rateRE _ rfl phiOK_rateRE _ _ hl
      (rateRE_canon_nil _ (by omega))]
  · obtain ⟨c, rest, rfl⟩ : ∃ c rest, l = c :: rest := by
      cases l with
      | nil => simp at h9
      | cons c rest => exact ⟨c, rest, rfl⟩
    rw [anonymize_expand]
    rw [reSub_digits_id accountRE _ rfl phiOK_accountRE _ _ hl
      (accountRE_canon_nil _ (by omega) (by omega))]
    rw [reSub_digits_full numberRE phiOK_numberRE _ _ hl
      (numberRE_canon_full _ (by omega) (by omega)) c rest rfl]
    decide
  · obtain ⟨c, rest, rfl⟩ : ∃ c rest, l = c :: rest := by
      cases l with
      | nil => simp at h16
      | cons c rest => exact ⟨c, rest, rfl⟩
    rw [anonymize_expand]
    rw [reSub_digits_full accountRE phiOK_accountRE _ _ hl
      (by rw [h16]; exact accountRE_canon_16) c rest rfl]
    decide

/-- Claim C5, witness: the classification applied to one concrete run of
each regime. -/
theorem c5_class_witness :
    anonymize_financial_info "500" = "[REDACTED_AMOUNT]" ∧
    anonymize_financial_info "5000" = "5000" ∧
    anonymize_financial_info "123456789" = "[REDACTED_NUMBER]" ∧
    anonymize_financial_info "1234567890123456" = "[REDACTED_ACCOUNT]" :=
  ⟨(c5_digit_run_classification "500".data (by decide)).1 (by decide) (by decide),
   ((c5_digit_run_classification "5000".data (by decide)).2).1 (by decide) (by decide),
   (((c5_digit_run_classification "123456789".data (by decide)).2).2).1
     (by decide) (by decide) (by decide),
   (((c5_digit_run_classification "1234567890123456".data (by decide)).2).2).2 (by decide)⟩

/-- Claim C6, counterexample: on a row whose only cell is a question, the
Row Segmenter returns that question together with an empty tail — the
combination (question, empty tail) that the claim says never occurs. -/
theorem c6_counterexample :
    (process_row [Cell.text "What is the minimum balance?"]).1.isSome = true ∧
    (process_row [Cell.text "What is the minimum balance?"]).2 = [] := by decide

/-- Claim C6, amended: the Row Segmenter returns either a question together
with the possibly empty list of cells strictly after the question cell (a
suffix of the row), or no question together with an empty tail. -/
theorem c6_segmenter_shape (row : List Cell) :
    ((process_row row).1 = none → (process_row row).2 = []) ∧
    (∀ q, (process_row row).1 = some q → (process_row row).2.IsSuffix row) := by
  induction row with
  | nil =>
    exact ⟨fun _ => rfl, fun q h => by simp [process_row] at h⟩
  | cons c rest ih =>
    constructor
    · intro h
      simp only [process_row] at h ⊢
      by_cases h1 : pyLower (pyStrip (pyStr c)) = "main"
      · rw [if_pos h1] at h ⊢
        exact ih.1 h
      · rw [if_neg h1] at h ⊢
        by_cases h2 : is_question (pyStrip (pyStr c)) = true
        · rw [if_pos h2] at h
          simp at h
        · rw [if_neg h2] at h ⊢
          exact ih.1 h
    · intro q h
      simp only [process_row] at h ⊢
      by_cases h1 : pyLower (pyStrip (pyStr c)) = "main"
      · rw [if_pos h1] at h ⊢
        exact (ih.2 q h).trans (List.suffix_cons c rest)
      · rw [if_neg h1] at h ⊢
        by_cases h2 : is_question (pyStrip (pyStr c)) = true
        · rw [if_pos h2] at h ⊢
          exact List.suffix_cons c rest
        · rw [if_neg h2] at h ⊢
          exact (ih.2 q h).trans (List.suffix_cons c rest)
  
/-- Claim C6, witness: the amended theorem applied to a concrete
questionless row. -/
theorem c6_witness : (process_row [Cell.text "greetings"]).2 = [] :=
  (c6_segmenter_shape [Cell.text "greetings"]).1 (by decide)

/-- Claim C7: the three-row sheet of the end-to-end example produces exactly
one block, whose question is the first row's text and whose answer is the
2-column pipe table with header "Tier | Amount", the dash separator row, and
the single data row "Gold | 5000" with "5000" left unredacted. -/
theorem c7_end_to_end :
    processSheetBlocks
      [[Cell.text "What is the minimum balance?"],
       [Cell.text "Tier", Cell.text "Amount"],
       [Cell.text "Gold", Cell.text "5000"]]
      = [("What is the minimum balance?",
          "| Tier | Amount |\n| --- | --- |\n| Gold | 5000 |")] := by decide

/-- Claim C8: every text whose stripped, lowered form ends with a question
mark or starts with one of the configured interrogative words passes the
Question Detector, and the empty text and the literal "nan" do not. -/
theorem c8_question_detector :
    (∀ t : String,
      (strEndsWith (pyLower (pyStrip t)) "?" = true ∨
       ∃ w ∈ questionWords, strStartsWith (pyLower (pyStrip t)) w = true) →
      is_question t = true) ∧
    is_question "" = false ∧ is_question "nan" = false := by
  refine ⟨?_, by decide, by decide⟩
  intro t h
  rcases h with h | h
  · exact isq_of_endsQ t h
  · exact isq_of_keyword t (List.any_eq_true.mpr h)

/-- Claim C8, witness: the detector theorem applied to a concrete
keyword-led text. -/
theorem c8_witness : is_question "What time" = true :=
  c8_question_detector.1 "What time" (Or.inr ⟨"what", by decide, by decide⟩)

/-- Claim C9: rows preceding the first question-bearing row have no effect:
prepending any rows that yield no question leaves the sheet output unchanged
(such rows are appended to the accumulator, which is discarded when the
first question arrives, and no block can be emitted before that). -/
theorem c9_prefix_rows_no_effect (sheet src : String) (pre rows : List (List Cell))
    (h : ∀ r ∈ pre, (process_row r).1 = none) :
    process_sheet sheet (pre ++ rows) src = process_sheet sheet rows src := by
  unfold process_sheet processSheetBlocks
  rw [aux_prepend_none rows pre h []]

/-- Claim C9, witness: the theorem applied to a concrete questionless prefix
row. -/
theorem c9_witness :
    process_sheet "S" ([[Cell.text "hello"]] ++ [[Cell.text "What?"]]) "f"
      = process_sheet "S" [[Cell.text "What?"]] "f" :=
  c9_prefix_rows_no_effect "S" "f" [[Cell.text "hello"]] [[Cell.text "What?"]] (by decide)

/-- Claim C10: the keyword test of the Question Detector is a raw prefix
match with no trailing word boundary, so texts beginning with a keyword in
the middle of a longer word are detected as questions and segmented as such. -/
theorem c10_raw_prefix_match :
    (∀ t : String,
      (∃ w ∈ questionWords, strStartsWith (pyLower (pyStrip t)) w = true) →
      is_question t = true) ∧
    is_question "Island branches" = true ∧
    is_question "Canteen timings" = true ∧
    is_question "Willingness" = true ∧
    process_row [Cell.text "Island branches", Cell.text "x"]
      = (some "Island branches", [Cell.text "x"]) := by
  refine ⟨?_, by decide, by decide, by decide, by decide⟩
  intro t h
  exact isq_of_keyword t (List.any_eq_true.mpr h)

/-- Claim C10, witness: the raw-prefix theorem applied to a concrete text
whose first word merely begins with a keyword. -/
theorem c10_witness : is_question "Willpower" = true :=
  c10_raw_prefix_match.1 "Willpower" ⟨"will", by decide, by decide⟩
